import Mathlib

/-!
Verification of the admiral status-line generator (src/main.rs).

The development shallowly embeds the program: the TOML value model used by
the configuration lookups, the per-item validation phase of the runner
function, the three execution policies as event traces, the spawn loop of
the entry point, the aggregator / print loop, and a model of the
multi-producer single-consumer channel endpoints.  All definitions are
translated from the source; theorems about them settle the specification
claims.
-/

/-- TOML values as dispatched on by the program.  Floats are carried as
rationals: the program only inspects the numeric tag of the `reload`
field, never its bit-level value.  Mirrors the toml crate value type. -/
inductive Toml where
  | str (s : String)
  | int (i : Int)
  | float (q : Rat)
  | bool (b : Bool)
  | arr (elems : List Toml)
  | table (entries : List (String × Toml))

/-- Table lookup, mirroring the toml table get used throughout main.rs.
Tables in the toml crate are maps with unique keys, modelled here as
association lists queried by first match. -/
def tomlGet (entries : List (String × Toml)) (key : String) : Option Toml :=
  (entries.find? (fun kv => kv.1 == key)).map (fun kv => kv.2)

/-- Mirrors toml Value::as_bool (main.rs line 66): only a boolean value
yields some; every other shape yields none. -/
def Toml.as_bool : Toml → Option Bool
  | .bool b => some b
  | _ => none

/-- Mirrors toml Value::as_table: only a table value yields its entries. -/
def Toml.as_table : Toml → Option (List (String × Toml))
  | .table entries => some entries
  | _ => none

/-- True exactly on integer and float values, the two numeric TOML tags
accepted by the reload match in main.rs lines 71-85. -/
def Toml.isNumeric : Toml → Bool
  | .int _ => true
  | .float _ => true
  | _ => false

/-- An update sent from a runner thread to the aggregator
(struct Update, main.rs lines 17-21). -/
structure Update where
  position : Nat
  message : String
deriving DecidableEq

/-- Line-ending characters trimmed by the runners
(the pattern ['\r', '\n'] of main.rs lines 119, 125, 134). -/
def isLineEnd (c : Char) : Bool := c = '\r' || c = '\n'

/-- Rust str::trim_matches on the pattern ['\r', '\n']: repeatedly removes
matching characters from BOTH ends of the string. -/
def trimEndsRN (l : List Char) : List Char :=
  ((l.dropWhile isLineEnd).reverse.dropWhile isLineEnd).reverse

/-- String form of the trim applied to every message the program emits. -/
def trimMatchesRN (s : String) : String := ⟨trimEndsRN s.data⟩

/-- Split a character stream at every newline character; the newline
characters themselves are not kept.  Always returns at least one
(possibly empty) segment. -/
def splitOnNL : List Char → List (List Char)
  | [] => [[]]
  | c :: rest =>
    if c = '\n' then [] :: splitOnNL rest
    else
      match splitOnNL rest with
      | [] => [[c]]
      | seg :: segs => (c :: seg) :: segs

/-- Remove one trailing carriage return, as BufRead::lines does on a
newline-terminated line. -/
def stripCR (l : List Char) : List Char :=
  if l.getLast? = some '\r' then l.dropLast else l

/-- Rust BufRead::lines over a full stream (main.rs line 133): segments are
delimited by newline characters; every newline-terminated segment loses one
trailing carriage return; a final unterminated segment is yielded verbatim,
and a final empty segment (stream ended in a newline) is not yielded. -/
def rustLines (s : String) : List String :=
  let segs := splitOnNL s.data
  let terminated := (segs.dropLast.map stripCR).map (fun l => (⟨l⟩ : String))
  match segs.getLast? with
  | some [] => terminated
  | some lastSeg => terminated ++ [(⟨lastSeg⟩ : String)]
  | none => terminated

/-- The validated data a runner needs, as computed by execute_script
before it enters its policy branch (main.rs lines 40-115). -/
structure RunnerSpec where
  shell : String
  command : String
  isStatic : Bool
  duration : Option Nat
deriving DecidableEq

/-- The path lookup of execute_script (main.rs lines 40-64): an array is a
deprecation error, a string is the command, any other present value is
invalid, an absent value is missing; the three failure cases panic after a
diagnostic. -/
def pathOf (sectionName : String) (config : List (String × Toml)) : Except String String :=
  match tomlGet config "path" with
  | some (Toml.arr _) =>
      Except.error ("Invalid path found for " ++ sectionName ++ ": arrays are deprecated - use a string instead\n")
  | some (Toml.str s) => Except.ok s
  | some _ => Except.error ("Invalid path found for " ++ sectionName ++ "\n")
  | none => Except.error ("No path found for " ++ sectionName ++ "\n")

/-- The static flag of execute_script (main.rs lines 66-69): as_bool of the
field when present, with None (absent OR not a boolean) falling back to
false. -/
def isStaticOf (config : List (String × Toml)) : Bool :=
  match (tomlGet config "static").bind Toml.as_bool with
  | some value => value
  | none => false

/-- The reload interval of execute_script (main.rs lines 71-85), in
milliseconds: floats and integers are scaled by 1000; any other present
value, like an absent one, yields none (no panic).  The float-to-machine
cast is abstracted by rational floor, which agrees with the Rust cast on
the non-negative values the tag dispatch is concerned with. -/
def durationOf (config : List (String × Toml)) : Option Nat :=
  match tomlGet config "reload" with
  | some (Toml.float q) => some (q * 1000).floor.toNat
  | some (Toml.int i) => some (i * 1000).toNat
  | some _ => none
  | none => none

/-- The shell lookup of execute_script (main.rs lines 87-111): a string
field wins, any other present value panics, an absent field falls back to
the SHELL environment variable, whose absence also panics. -/
def shellOf (sectionName : String) (config : List (String × Toml)) (envShell : Option String) : Except String String :=
  match tomlGet config "shell" with
  | some (Toml.str s) => Except.ok s
  | some _ => Except.error ("Invalid shell found for " ++ sectionName ++ "\n")
  | none =>
    match envShell with
    | some sh => Except.ok sh
    | none => Except.error "Could not find your shell. Make sure the $SHELL variable is set.\n"

/-- The whole validation prefix of execute_script (main.rs lines 39-115),
in source order: the section must be a table (the expect on line 39), then
path, then the non-failing static and reload lookups, then shell.  An error
value is the panic message of the runner thread. -/
def validateScript (sectionName : String) (configuration : Option (List (String × Toml))) (envShell : Option String) : Except String RunnerSpec :=
  match configuration with
  | none => Except.error ("Failed to find valid section for " ++ sectionName)
  | some config =>
    match pathOf sectionName config with
    | Except.error e => Except.error e
    | Except.ok command =>
      let isStatic := isStaticOf config
      let duration := durationOf config
      match shellOf sectionName config envShell with
      | Except.error e => Except.error e
      | Except.ok shell => Except.ok ⟨shell, command, isStatic, duration⟩

/-- Observable actions of a runner thread: one command execution (both the
blocking output() form and the spawn() form), one channel send, one sleep
of the given number of milliseconds. -/
inductive Event where
  | exec
  | send (u : Update)
  | sleepMs (ms : Nat)
deriving DecidableEq

/-- The updates carried by a trace, in emission order. -/
def sendsOf (events : List Event) : List Update :=
  events.filterMap (fun e => match e with | Event.send u => some u | _ => none)

/-- True exactly on the exec event. -/
def isExec : Event → Bool
  | Event.exec => true
  | _ => false

/-- Number of command executions in a trace. -/
def execCount (events : List Event) : Nat :=
  (events.filter isExec).length

/-- The static branch of execute_script (main.rs lines 117-119): run the
command once, send one update with the trimmed captured standard output,
return (ending the thread). -/
def staticEvents (position : Nat) (capturedOut : String) : List Event :=
  [Event.exec, Event.send ⟨position, trimMatchesRN capturedOut⟩]

/-- One iteration of the periodic loop (main.rs lines 123-127): run to
completion, send the trimmed output, sleep the interval. -/
def periodicRound (position : Nat) (timeMs : Nat) (capturedOut : String) : List Event :=
  [Event.exec, Event.send ⟨position, trimMatchesRN capturedOut⟩, Event.sleepMs timeMs]

/-- The periodic loop observed for finitely many iterations, one captured
output per completed execution. -/
def periodicEvents (position : Nat) (timeMs : Nat) (outs : List String) : List Event :=
  (outs.map (periodicRound position timeMs)).flatten

/-- One generation of the streaming loop (main.rs lines 130-137): spawn the
process, send one trimmed update per line of its standard output, and after
the stream ends sleep 10 milliseconds before the next spawn. -/
def streamingRound (position : Nat) (stdout : String) : List Event :=
  Event.exec :: ((rustLines stdout).map (fun line => Event.send ⟨position, trimMatchesRN line⟩) ++ [Event.sleepMs 10])

/-- The streaming loop observed for finitely many process generations. -/
def streamingEvents (position : Nat) (gens : List String) : List Event :=
  (gens.map (streamingRound position)).flatten

/-- The policy dispatch of execute_script (main.rs lines 117-140): static
wins, otherwise a present reload interval selects the periodic loop, and an
absent one the streaming loop.  The world supplies at least one command
result; loops are observed on the finite prefix firstOut :: rest. -/
def runnerEvents (spec : RunnerSpec) (position : Nat) (firstOut : String) (rest : List String) : List Event :=
  if spec.isStatic then
    staticEvents position firstOut
  else
    match spec.duration with
    | some timeMs => periodicEvents position timeMs (firstOut :: rest)
    | none => streamingEvents position (firstOut :: rest)

/-- The aggregator state owned by main: the per-position slots
(message_vec), the last printed line (print_message), and the lines printed
so far, oldest first. -/
structure AggState where
  messageVec : List String
  printMessage : String
  outputs : List String
deriving DecidableEq

/-- message_vec.iter().cloned().collect::<String>() (main.rs lines
220-221): the slots concatenated in position order with no separator. -/
def concatLine (messageVec : List String) : String :=
  messageVec.foldl (fun acc s => acc ++ s) ""

/-- One iteration of the receive loop (main.rs lines 217-225): store the
message in its slot, recompute the concatenation, and when it differs from
the last printed line record it as printed (the code sleeps 5 ms between
capturing the new line and printing that same captured value). -/
def aggStep (st : AggState) (u : Update) : AggState :=
  let messageVec := st.messageVec.set u.position u.message
  let line := concatLine messageVec
  if st.printMessage ≠ line then
    { messageVec := messageVec, printMessage := line, outputs := st.outputs ++ [line] }
  else
    { messageVec := messageVec, printMessage := st.printMessage, outputs := st.outputs }

/-- The aggregator state before the receive loop: slots one empty string
per spawned runner, empty print_message, nothing printed. -/
def aggInit (slots : Nat) : AggState :=
  ⟨List.replicate slots "", "", []⟩

/-- The receive loop run over a finite sequence of received updates. -/
def aggRun (st : AggState) (updates : List Update) : AggState :=
  updates.foldl aggStep st

/-- State of the spawn loop of main (main.rs lines 190-215): the spawned
runners as (section name, position, raw section value), the position
counter, the slots pushed so far, and the stderr diagnostics. -/
structure SpawnState where
  spawned : List (String × Nat × Toml)
  position : Nat
  messageVec : List String
  diags : List String

/-- One iteration of the spawn loop (main.rs lines 194-215): a name present
in the configuration spawns a runner at the current position, increments
the counter and pushes an empty slot; an absent name only emits a
diagnostic.  A present name is spawned whatever the shape of its value; a
non-table value makes the runner thread itself panic later, inside
validateScript. -/
def spawnStep (configToml : List (String × Toml)) (st : SpawnState) (value : String) : SpawnState :=
  match tomlGet configToml value with
  | some script =>
    { spawned := st.spawned ++ [(value, st.position, script)]
      position := st.position + 1
      messageVec := st.messageVec ++ [""]
      diags := st.diags }
  | none =>
    { st with diags := st.diags ++ ["No " ++ value ++ " found\n"] }

/-- The whole spawn loop over the declared order list. -/
def spawnAll (configToml : List (String × Toml)) (items : List String) : SpawnState :=
  items.foldl (spawnStep configToml) ⟨[], 0, [], []⟩

/-- State of the mpsc channel created on main.rs line 188: the number of
live sender endpoints and the queued, not yet received updates. -/
structure Channel where
  liveSenders : Nat
  queued : List Update
deriving DecidableEq

/-- Outcome of one receive attempt of the loop on main.rs line 217. -/
inductive RecvResult where
  | update (u : Update)
  | closed
  | blocked
deriving DecidableEq

/-- mpsc receive semantics, as relied on by the for loop over
receiver.iter(): a queued update is delivered; an empty queue ends the
iterator (closing the loop) exactly when no sender endpoint is left alive,
and otherwise blocks the consumer. -/
def recvStep (c : Channel) : RecvResult :=
  match c.queued with
  | u :: _ => RecvResult.update u
  | [] => if c.liveSenders = 0 then RecvResult.closed else RecvResult.blocked

/-- Lifecycle events of the sender endpoints: a clone handed to a spawned
runner (main.rs line 201), the drop of such a clone when its runner thread
returns or panics, and the drop of the original sender bound in main. -/
inductive SenderEvent where
  | clone
  | dropClone
  | dropOriginal
deriving DecidableEq

/-- Effect of one sender lifecycle event on the number of live endpoints. -/
def senderStep (n : Nat) : SenderEvent → Nat
  | SenderEvent.clone => n + 1
  | SenderEvent.dropClone => n - 1
  | SenderEvent.dropOriginal => n - 1

/-- Live sender endpoints after a sequence of lifecycle events, starting
from the single original endpoint created by channel(). -/
def liveAfter (events : List SenderEvent) : Nat :=
  events.foldl senderStep 1

/-- Sender lifecycle of a static-only configuration with n runnable items,
observed up to the point where every runner thread has sent its one update
and exited: one clone per spawned runner, later dropped when the runner
returns.  The original sender bound on main.rs line 188 is never moved or
dropped before or inside the receive loop - main would drop it only after
the loop ends - so no dropOriginal event occurs. -/
def mainSenderEventsStaticOnly (n : Nat) : List SenderEvent :=
  List.replicate n SenderEvent.clone ++ List.replicate n SenderEvent.dropClone

/-- The updates a spawned runner contributes to the channel: none when its
validation prefix panics, the policy trace sends otherwise. -/
def runnerSends (sectionName : String) (scriptValue : Toml) (envShell : Option String) (position : Nat) (firstOut : String) (rest : List String) : List Update :=
  match validateScript sectionName scriptValue.as_table envShell with
  | Except.error _ => []
  | Except.ok spec => sendsOf (runnerEvents spec position firstOut rest)

/-- The stderr diagnostic a spawned runner contributes: its panic message
when validation fails, nothing otherwise. -/
def runnerDiags (sectionName : String) (scriptValue : Toml) (envShell : Option String) : List String :=
  match validateScript sectionName scriptValue.as_table envShell with
  | Except.error d => [d]
  | Except.ok _ => []

/-- A fair merge of the per-runner update queues driven by a schedule of
runner indices: the channel delivers updates in arbitrary interleaving
across senders while preserving each sender's own emission order.  An index
with an exhausted (or out of range) queue contributes nothing. -/
def interleave : List (List Update) → List Nat → List Update
  | _, [] => []
  | queues, i :: rest =>
    match queues[i]? with
    | some (u :: us) => u :: interleave (queues.set i us) rest
    | _ => interleave queues rest

/-- Observable outcome of a whole run: stderr diagnostics (spawn-loop
lookup misses first, then runner panics) and the printed lines. -/
structure SystemOutcome where
  stderrDiags : List String
  printed : List String
deriving DecidableEq

/-- A whole program run: spawn runners over the declared items, give the
i-th spawned runner the i-th world (its command results), let each runner
contribute its updates and diagnostics, deliver the updates in the
interleaving chosen by the schedule, and run the receive loop on them. -/
def systemRun (configToml : List (String × Toml)) (items : List String) (envShell : Option String) (worlds : List (String × List String)) (sched : List Nat) : SystemOutcome :=
  let S := spawnAll configToml items
  let paired := S.spawned.zip worlds
  let rDiags := (paired.map (fun p => runnerDiags p.1.1 p.1.2.2 envShell)).flatten
  let queues := paired.map (fun p => runnerSends p.1.1 p.1.2.2 envShell p.1.2.1 p.2.1 p.2.2)
  let final := aggRun ⟨S.messageVec, "", []⟩ (interleave queues sched)
  ⟨S.diags ++ rDiags, final.outputs⟩

/-- The latest message an update sequence leaves for a given position,
starting from a current value: the message of the last update in the
sequence addressed to that position. -/
def latestMessage (current : String) (pos : Nat) : List Update → String
  | [] => current
  | u :: us => latestMessage (if u.position = pos then u.message else current) pos us

/-- The sequence of recomputed concatenations along a run of the receive
loop, one per received update. -/
def linesSeq : AggState → List Update → List String
  | _, [] => []
  | st, u :: us => concatLine ((aggStep st u).messageVec) :: linesSeq (aggStep st u) us

/-- Number of values in the sequence that differ from their predecessor
(the running predecessor starting at the given previous value): the number
of distinct successive values observed. -/
def countChanges (prev : String) : List String → Nat
  | [] => 0
  | x :: xs => if x = prev then countChanges prev xs else countChanges x xs + 1

/-! ## General lemmas about traces and the aggregator -/

theorem sendsOf_append (a b : List Event) : sendsOf (a ++ b) = sendsOf a ++ sendsOf b :=
  List.filterMap_append a b _

theorem execCount_append (a b : List Event) : execCount (a ++ b) = execCount a + execCount b := by
  simp [execCount, List.filter_append]

theorem sendsOf_cons_exec (es : List Event) : sendsOf (Event.exec :: es) = sendsOf es := rfl

theorem sendsOf_cons_send (u : Update) (es : List Event) :
    sendsOf (Event.send u :: es) = u :: sendsOf es := rfl

theorem sendsOf_cons_sleep (ms : Nat) (es : List Event) :
    sendsOf (Event.sleepMs ms :: es) = sendsOf es := rfl

theorem execCount_cons_exec (es : List Event) : execCount (Event.exec :: es) = execCount es + 1 := rfl

theorem execCount_cons_send (u : Update) (es : List Event) :
    execCount (Event.send u :: es) = execCount es := rfl

theorem execCount_cons_sleep (ms : Nat) (es : List Event) :
    execCount (Event.sleepMs ms :: es) = execCount es := rfl

theorem sendsOf_send_map (position : Nat) (lines : List String) :
    sendsOf ((lines.map (fun line => Event.send ⟨position, trimMatchesRN line⟩)) ++ [Event.sleepMs 10])
      = lines.map (fun line => (⟨position, trimMatchesRN line⟩ : Update)) := by
  induction lines with
  | nil => rfl
  | cons a l ih => simpa [sendsOf_cons_send] using ih

theorem sendsOf_streamingRound (position : Nat) (g : String) :
    sendsOf (streamingRound position g)
      = (rustLines g).map (fun line => (⟨position, trimMatchesRN line⟩ : Update)) := by
  rw [streamingRound, sendsOf_cons_exec, sendsOf_send_map]

theorem execCount_send_map (position : Nat) (lines : List String) :
    execCount ((lines.map (fun line => Event.send ⟨position, trimMatchesRN line⟩)) ++ [Event.sleepMs 10]) = 0 := by
  induction lines with
  | nil => rfl
  | cons a l ih => simpa [execCount_cons_send] using ih

theorem execCount_streamingRound (position : Nat) (g : String) :
    execCount (streamingRound position g) = 1 := by
  rw [streamingRound, execCount_cons_exec, execCount_send_map]

theorem sendsOf_periodicRound (position : Nat) (timeMs : Nat) (out : String) :
    sendsOf (periodicRound position timeMs out) = [⟨position, trimMatchesRN out⟩] := rfl

theorem aggRun_nil (st : AggState) : aggRun st [] = st := rfl

theorem aggRun_cons (st : AggState) (u : Update) (us : List Update) :
    aggRun st (u :: us) = aggRun (aggStep st u) us := rfl

theorem aggStep_messageVec (st : AggState) (u : Update) :
    (aggStep st u).messageVec = st.messageVec.set u.position u.message := by
  simp only [aggStep]
  split <;> rfl

theorem aggStep_length (st : AggState) (u : Update) :
    (aggStep st u).messageVec.length = st.messageVec.length := by
  rw [aggStep_messageVec]
  exact List.length_set ..

theorem aggRun_length (st : AggState) (us : List Update) :
    (aggRun st us).messageVec.length = st.messageVec.length := by
  induction us generalizing st with
  | nil => rfl
  | cons u us ih => rw [aggRun_cons, ih, aggStep_length]

theorem aggStep_cases (st : AggState) (u : Update) :
    (concatLine (st.messageVec.set u.position u.message) = st.printMessage
      ∧ aggStep st u = ⟨st.messageVec.set u.position u.message, st.printMessage, st.outputs⟩)
    ∨ (concatLine (st.messageVec.set u.position u.message) ≠ st.printMessage
      ∧ aggStep st u = ⟨st.messageVec.set u.position u.message,
          concatLine (st.messageVec.set u.position u.message),
          st.outputs ++ [concatLine (st.messageVec.set u.position u.message)]⟩) := by
  simp only [aggStep]
  by_cases h : st.printMessage = concatLine (st.messageVec.set u.position u.message)
  · left
    exact ⟨h.symm, by rw [if_neg (by simpa using h)]⟩
  · right
    exact ⟨fun hh => h hh.symm, by rw [if_pos (by simpa using h)]⟩

theorem concatLine_foldl_data (v : List String) (acc : String) :
    (v.foldl (fun a s => a ++ s) acc).data = acc.data ++ (v.map String.data).flatten := by
  induction v generalizing acc with
  | nil => simp
  | cons s v ih =>
    rw [List.foldl_cons, ih, String.data_append]
    simp

theorem concatLine_data (v : List String) :
    (concatLine v).data = (v.map String.data).flatten := by
  rw [concatLine, concatLine_foldl_data]
  rfl

theorem concatLine_replicate_empty (n : Nat) : concatLine (List.replicate n "") = "" := by
  apply String.ext
  rw [concatLine_data]
  simp

theorem aggRun_getD (st : AggState) (us : List Update) (i : Nat) (hi : i < st.messageVec.length) :
    (aggRun st us).messageVec.getD i "" = latestMessage (st.messageVec.getD i "") i us := by
  induction us generalizing st with
  | nil => rfl
  | cons u us ih =>
    rw [aggRun_cons, latestMessage]
    rw [ih _ (by rw [aggStep_length]; exact hi)]
    congr 1
    rw [aggStep_messageVec]
    by_cases hp : u.position = i
    · subst hp
      simp [List.getD_eq_getElem?_getD, List.getElem?_set, hi]
    · simp [List.getD_eq_getElem?_getD, List.getElem?_set, hp]

theorem aggStep_print_eq_concat (st : AggState) (u : Update) :
    (aggStep st u).printMessage = concatLine ((aggStep st u).messageVec) := by
  rcases aggStep_cases st u with ⟨he, hs⟩ | ⟨hne, hs⟩
  · rw [hs, he]
  · rw [hs]

theorem aggRun_print_eq_concat (st : AggState) (us : List Update)
    (h : st.printMessage = concatLine st.messageVec) :
    (aggRun st us).printMessage = concatLine ((aggRun st us).messageVec) := by
  induction us generalizing st with
  | nil => exact h
  | cons u us ih => rw [aggRun_cons]; exact ih _ (aggStep_print_eq_concat st u)

theorem aggRun_outputs_last (st : AggState) (us : List Update)
    (h : st.outputs = [] ∨ st.outputs.getLast? = some st.printMessage) :
    (aggRun st us).outputs = [] ∨ (aggRun st us).outputs.getLast? = some ((aggRun st us).printMessage) := by
  induction us generalizing st with
  | nil => exact h
  | cons u us ih =>
    rw [aggRun_cons]
    apply ih
    rcases aggStep_cases st u with ⟨he, hs⟩ | ⟨hne, hs⟩
    · rw [hs]; exact h
    · rw [hs]
      right
      exact List.getLast?_concat _

theorem countChanges_cons (prev x : String) (xs : List String) :
    countChanges prev (x :: xs) = if x = prev then countChanges prev xs else countChanges x xs + 1 := rfl

theorem linesSeq_cons (st : AggState) (u : Update) (us : List Update) :
    linesSeq st (u :: us) = concatLine ((aggStep st u).messageVec) :: linesSeq (aggStep st u) us := rfl

theorem aggRun_outputs_count (us : List Update) (st : AggState) :
    (aggRun st us).outputs.length = st.outputs.length + countChanges st.printMessage (linesSeq st us) := by
  induction us generalizing st with
  | nil => simp [aggRun_nil, linesSeq, countChanges]
  | cons u us ih =>
    rw [aggRun_cons, linesSeq_cons, countChanges_cons]
    rcases aggStep_cases st u with ⟨he, hs⟩ | ⟨hne, hs⟩
    · rw [if_pos (by rw [aggStep_messageVec]; exact he), ih, hs]
    · rw [if_neg (by rw [aggStep_messageVec]; exact hne), ih, hs]
      simp only [List.length_append, List.length_cons, List.length_nil]
      omega

theorem aggRun_getElem (st : AggState) (us : List Update) (i : Nat) (hi : i < st.messageVec.length) :
    (aggRun st us).messageVec[i]? = some (latestMessage (st.messageVec.getD i "") i us) := by
  have hlen : i < (aggRun st us).messageVec.length := by rw [aggRun_length]; exact hi
  have hd := aggRun_getD st us i hi
  rw [List.getD_eq_getElem?_getD] at hd
  rcases hx : (aggRun st us).messageVec[i]? with _ | w
  · exact absurd (List.getElem?_eq_none_iff.mp hx) (by omega)
  · rw [hx] at hd
    simpa using congrArg some hd

/-! ## The spawn loop -/

theorem spawnAll_append (configToml : List (String × Toml)) (items : List String) (v : String) :
    spawnAll configToml (items ++ [v]) = spawnStep configToml (spawnAll configToml items) v := by
  rw [spawnAll, spawnAll, List.foldl_append]
  rfl

theorem spawnAll_characterization (configToml : List (String × Toml)) (items : List String) :
    (spawnAll configToml items).position = (spawnAll configToml items).messageVec.length
    ∧ (spawnAll configToml items).messageVec = List.replicate (spawnAll configToml items).position ""
    ∧ (spawnAll configToml items).spawned.map (fun e => e.2.1) = List.range (spawnAll configToml items).position
    ∧ (spawnAll configToml items).spawned.map (fun e => e.1) = items.filter (fun v => (tomlGet configToml v).isSome)
    ∧ (spawnAll configToml items).diags
        = (items.filter (fun v => (tomlGet configToml v).isNone)).map (fun v => "No " ++ v ++ " found\n") := by
  induction items using List.reverseRecOn with
  | nil => exact ⟨rfl, rfl, rfl, rfl, rfl⟩
  | append_singleton items v ih =>
    obtain ⟨h1, h2, h3, h4, h5⟩ := ih
    rw [spawnAll_append]
    cases hv : tomlGet configToml v with
    | some script =>
      refine ⟨?_, ?_, ?_, ?_, ?_⟩
      · simp [spawnStep, hv, h1]
      · simp only [spawnStep, hv]
        rw [h2, ← List.replicate_succ']
      · simp only [spawnStep, hv, List.map_append, List.map_cons, List.map_nil]
        rw [h3, ← List.range_succ]
      · simp only [spawnStep, hv]
        rw [List.map_append, h4, List.filter_append]
        simp [List.filter, hv]
      · simp only [spawnStep, hv]
        rw [h5, List.filter_append]
        simp [List.filter, hv]
    | none =>
      refine ⟨?_, ?_, ?_, ?_, ?_⟩
      · simpa [spawnStep, hv] using h1
      · simpa [spawnStep, hv] using h2
      · simpa [spawnStep, hv] using h3
      · simp only [spawnStep, hv]
        rw [h4, List.filter_append]
        simp [List.filter, hv]
      · simp only [spawnStep, hv]
        rw [h5, List.filter_append]
        simp [List.filter, hv]

/-! ## Claim C1 -/

/-- C1: the spawn loop skips every declared name absent from the configuration
with a stderr diagnostic and no position; the remaining names receive the dense
positions 0..N-1 in their declared order; and the receive loop keeps the
printed line equal to the concatenation, with no separator, of the latest
message per assigned position, in position order (the last printed line is
that concatenation whenever anything has been printed). -/
theorem ordered_line_and_dense_positions (configToml : List (String × Toml)) (items : List String) (us : List Update) :
    ((spawnAll configToml items).spawned.map (fun e => e.2.1)
        = List.range (spawnAll configToml items).messageVec.length)
    ∧ ((spawnAll configToml items).spawned.map (fun e => e.1)
        = items.filter (fun v => (tomlGet configToml v).isSome))
    ∧ ((spawnAll configToml items).diags
        = (items.filter (fun v => (tomlGet configToml v).isNone)).map (fun v => "No " ++ v ++ " found\n"))
    ∧ ((aggRun ⟨(spawnAll configToml items).messageVec, "", []⟩ us).messageVec
        = (List.range (spawnAll configToml items).messageVec.length).map (fun i => latestMessage "" i us))
    ∧ ((aggRun ⟨(spawnAll configToml items).messageVec, "", []⟩ us).printMessage
        = concatLine ((List.range (spawnAll configToml items).messageVec.length).map (fun i => latestMessage "" i us)))
    ∧ ((aggRun ⟨(spawnAll configToml items).messageVec, "", []⟩ us).outputs = []
        ∨ (aggRun ⟨(spawnAll configToml items).messageVec, "", []⟩ us).outputs.getLast?
            = some ((aggRun ⟨(spawnAll configToml items).messageVec, "", []⟩ us).printMessage)) := by
  obtain ⟨h1, h2, h3, h4, h5⟩ := spawnAll_characterization configToml items
  have hmv : ∀ i : Nat, (spawnAll configToml items).messageVec.getD i "" = "" := by
    intro i
    rw [h2, List.getD_eq_getElem?_getD, List.getElem?_replicate]
    split <;> rfl
  have hD : (aggRun ⟨(spawnAll configToml items).messageVec, "", []⟩ us).messageVec
      = (List.range (spawnAll configToml items).messageVec.length).map (fun i => latestMessage "" i us) := by
    apply List.ext_getElem?
    intro i
    by_cases hi : i < (spawnAll configToml items).messageVec.length
    · rw [aggRun_getElem _ _ _ hi, hmv i, List.getElem?_map]
      rw [List.getElem?_range hi]
      rfl
    · have hge := Nat.le_of_not_lt hi
      rw [List.getElem?_eq_none (by rw [aggRun_length]; exact hge),
          List.getElem?_eq_none (by rw [List.length_map, List.length_range]; exact hge)]
  have hE : (aggRun ⟨(spawnAll configToml items).messageVec, "", []⟩ us).printMessage
      = concatLine ((List.range (spawnAll configToml items).messageVec.length).map (fun i => latestMessage "" i us)) := by
    have hstart : ("" : String) = concatLine (spawnAll configToml items).messageVec := by
      rw [h2, concatLine_replicate_empty]
    rw [aggRun_print_eq_concat _ _ hstart, hD]
  exact ⟨by rw [h3, h1], h4, h5, hD, hE, aggRun_outputs_last _ us (Or.inl rfl)⟩

/-! ## Claim C9 -/

theorem dropWhile_head_not (p : Char → Bool) (l : List Char) (c : Char) (rest : List Char)
    (h : l.dropWhile p = c :: rest) : p c = false := by
  have hx := List.head?_dropWhile_not p l
  rw [h] at hx
  simpa using hx

theorem trimEndsRN_decomp (l : List Char) :
    ∃ pre suf : List Char,
      l = pre ++ trimEndsRN l ++ suf
      ∧ (∀ c ∈ pre, isLineEnd c = true)
      ∧ (∀ c ∈ suf, isLineEnd c = true)
      ∧ (∀ c rest, trimEndsRN l = c :: rest → isLineEnd c = false)
      ∧ (∀ c, (trimEndsRN l).getLast? = some c → isLineEnd c = false) := by
  refine ⟨l.takeWhile isLineEnd, ((l.dropWhile isLineEnd).reverse.takeWhile isLineEnd).reverse,
      ?_, ?_, ?_, ?_, ?_⟩
  · have hsplit : (l.dropWhile isLineEnd).reverse.takeWhile isLineEnd
        ++ (l.dropWhile isLineEnd).reverse.dropWhile isLineEnd = (l.dropWhile isLineEnd).reverse :=
      List.takeWhile_append_dropWhile ..
    have hrev := congrArg List.reverse hsplit
    rw [List.reverse_append, List.reverse_reverse] at hrev
    rw [trimEndsRN, List.append_assoc, hrev]
    exact (List.takeWhile_append_dropWhile ..).symm
  · intro c hc
    exact List.mem_takeWhile_imp hc
  · intro c hc
    exact List.mem_takeWhile_imp (List.mem_reverse.mp hc)
  · intro c rest h
    have hsplit : (l.dropWhile isLineEnd).reverse.takeWhile isLineEnd
        ++ (l.dropWhile isLineEnd).reverse.dropWhile isLineEnd = (l.dropWhile isLineEnd).reverse :=
      List.takeWhile_append_dropWhile ..
    have hrev := congrArg List.reverse hsplit
    rw [List.reverse_append, List.reverse_reverse] at hrev
    rw [trimEndsRN] at h
    have hdc : l.dropWhile isLineEnd
        = c :: rest ++ ((l.dropWhile isLineEnd).reverse.takeWhile isLineEnd).reverse := by
      conv_lhs => rw [← hrev]
      rw [h]
    exact dropWhile_head_not isLineEnd l c _ hdc
  · intro c hc
    rw [trimEndsRN, List.getLast?_reverse] at hc
    have hx := List.head?_dropWhile_not isLineEnd (l.dropWhile isLineEnd).reverse
    rw [hc] at hx
    simpa using hx

/-- C9 counterexample: a captured output with a leading line-ending character
does not keep it - for captured standard output given by newline, h, i the
emitted message is just hi, not the claimed text with only trailing line
endings removed. -/
theorem leading_newline_not_preserved :
    sendsOf (staticEvents 0 "\nhi") = [⟨0, "hi"⟩] ∧ ("hi" : String) ≠ "\nhi" := by
  refine ⟨by decide, by decide⟩

/-- C9 amended: every emitted message is the captured text with line-ending
characters stripped from BOTH ends (leading line-ending characters are removed
too); between the stripped ends the text is unchanged, and the result neither
starts nor ends with a line-ending character. -/
theorem message_strips_line_endings_both_ends (s : String) :
    (∀ position : Nat, sendsOf (staticEvents position s) = [⟨position, trimMatchesRN s⟩])
    ∧ ∃ pre suf : List Char,
        s.data = pre ++ (trimMatchesRN s).data ++ suf
        ∧ (∀ c ∈ pre, isLineEnd c = true)
        ∧ (∀ c ∈ suf, isLineEnd c = true)
        ∧ (∀ c rest, (trimMatchesRN s).data = c :: rest → isLineEnd c = false)
        ∧ (∀ c, (trimMatchesRN s).data.getLast? = some c → isLineEnd c = false) :=
  ⟨fun _ => rfl, trimEndsRN_decomp s.data⟩

/-! ## Claim C2 -/

theorem append_right_empty_of_eq (m1 m2 : String) (h : m1 ++ m2 = m1) : m2 = "" := by
  have hd := congrArg String.data h
  rw [String.data_append] at hd
  have h2 : m2.data = [] :=
    List.append_cancel_left (hd.trans (List.append_nil m1.data).symm)
  exact String.ext h2

/-- C2 counterexample: two updates to different slots already queued together
(as close in time as possible, well inside any settle window) produce TWO
printed lines, and the first printed line reflects only the first new value,
not both. -/
theorem two_updates_two_printed_lines :
    (aggRun (aggInit 2) [⟨0, "a"⟩, ⟨1, "b"⟩]).outputs = ["a", "ab"]
    ∧ ¬((aggRun (aggInit 2) [⟨0, "a"⟩, ⟨1, "b"⟩]).outputs.length = 1) :=
  ⟨by decide, by decide⟩

/-- C2 amended: the receive loop handles one update per iteration and never
merges queued updates into one print: every update that changes the
concatenation produces its own printed line, whose text is the concatenation
captured when that update was applied (before the settle sleep).  Two updates
to different slots that both change the line therefore yield two printed
lines, the first of which does not reflect the second value. -/
theorem settle_delay_does_not_coalesce (m1 m2 : String) (h1 : m1 ≠ "") (h2 : m2 ≠ "") :
    (aggRun (aggInit 2) [⟨0, m1⟩, ⟨1, m2⟩]).outputs = [m1, m1 ++ m2] := by
  have e1 : concatLine [m1, ""] = m1 := by
    rw [concatLine, List.foldl_cons, List.foldl_cons, List.foldl_nil,
        String.empty_append, String.append_empty]
  have e2 : concatLine [m1, m2] = m1 ++ m2 := by
    rw [concatLine, List.foldl_cons, List.foldl_cons, List.foldl_nil, String.empty_append]
  have s1 : aggStep (aggInit 2) ⟨0, m1⟩ = ⟨[m1, ""], m1, [m1]⟩ := by
    show (if ("" : String) ≠ concatLine [m1, ""] then
        (⟨[m1, ""], concatLine [m1, ""], [] ++ [concatLine [m1, ""]]⟩ : AggState)
      else ⟨[m1, ""], "", []⟩) = ⟨[m1, ""], m1, [m1]⟩
    rw [e1, if_pos (fun hh => h1 hh.symm)]
    rfl
  have s2 : aggStep ⟨[m1, ""], m1, [m1]⟩ ⟨1, m2⟩ = ⟨[m1, m2], m1 ++ m2, [m1, m1 ++ m2]⟩ := by
    show (if m1 ≠ concatLine [m1, m2] then
        (⟨[m1, m2], concatLine [m1, m2], [m1] ++ [concatLine [m1, m2]]⟩ : AggState)
      else ⟨[m1, m2], m1, [m1]⟩) = ⟨[m1, m2], m1 ++ m2, [m1, m1 ++ m2]⟩
    rw [e2, if_pos (fun hh => h2 (append_right_empty_of_eq m1 m2 hh.symm))]
    rfl
  show (aggStep (aggStep (aggInit 2) ⟨0, m1⟩) ⟨1, m2⟩).outputs = [m1, m1 ++ m2]
  rw [s1, s2]

/-- C2 amended witness at concrete values x and y. -/
theorem settle_delay_does_not_coalesce_check :
    (aggRun (aggInit 2) [⟨0, "x"⟩, ⟨1, "y"⟩]).outputs = ["x", "x" ++ "y"] :=
  settle_delay_does_not_coalesce "x" "y" (by decide) (by decide)

/-! ## Claim C6 -/

/-- C6: one receive-loop iteration prints exactly when the recomputed
concatenation differs from the last printed line; when they are equal, nothing
is printed and print_message is unchanged; over a whole run the number of
printed lines equals the number of distinct successive concatenation values,
not the number of updates received. -/
theorem print_iff_line_changed (st : AggState) (u : Update) (us : List Update) :
    (((aggStep st u).outputs.length = st.outputs.length + 1)
        ↔ concatLine (st.messageVec.set u.position u.message) ≠ st.printMessage)
    ∧ (concatLine (st.messageVec.set u.position u.message) = st.printMessage →
        (aggStep st u).outputs = st.outputs ∧ (aggStep st u).printMessage = st.printMessage)
    ∧ (aggRun st us).outputs.length = st.outputs.length + countChanges st.printMessage (linesSeq st us) := by
  have hiff : ((aggStep st u).outputs.length = st.outputs.length + 1)
      ↔ concatLine (st.messageVec.set u.position u.message) ≠ st.printMessage := by
    rcases aggStep_cases st u with ⟨he, hs⟩ | ⟨hne, hs⟩
    · rw [hs]
      show st.outputs.length = st.outputs.length + 1 ↔ _
      constructor
      · intro hlen
        exact absurd hlen (by omega)
      · intro hr
        exact absurd he hr
    · rw [hs]
      show (st.outputs ++ [_]).length = st.outputs.length + 1 ↔ _
      constructor
      · intro _
        exact hne
      · intro _
        simp
  have hnop : concatLine (st.messageVec.set u.position u.message) = st.printMessage →
      (aggStep st u).outputs = st.outputs ∧ (aggStep st u).printMessage = st.printMessage := by
    intro he
    rcases aggStep_cases st u with ⟨_, hs⟩ | ⟨hne, _⟩
    · rw [hs]
      exact ⟨rfl, rfl⟩
    · exact absurd he hne
  exact ⟨hiff, hnop, aggRun_outputs_count us st⟩

/-! ## Claim C7 -/

/-- C7: a static-policy runner executes its command exactly once, emits
exactly one update carrying the trimmed captured standard output, and its
whole trace is that execution followed by that send - it then terminates,
whatever further command results the world could offer. -/
theorem static_item_single_update (spec : RunnerSpec) (position : Nat) (firstOut : String) (rest : List String)
    (h : spec.isStatic = true) :
    runnerEvents spec position firstOut rest = [Event.exec, Event.send ⟨position, trimMatchesRN firstOut⟩]
    ∧ execCount (runnerEvents spec position firstOut rest) = 1
    ∧ sendsOf (runnerEvents spec position firstOut rest) = [⟨position, trimMatchesRN firstOut⟩] := by
  rw [runnerEvents, if_pos h]
  exact ⟨rfl, rfl, rfl⟩

/-- C7 witness: a concrete static item at position 7 emits exactly the one
trimmed update. -/
theorem static_item_single_update_check :
    sendsOf (runnerEvents ⟨"/bin/sh", "date", true, none⟩ 7 "12:00\n" ["ignored"]) = [⟨7, "12:00"⟩] := by
  have h := static_item_single_update ⟨"/bin/sh", "date", true, none⟩ 7 "12:00\n" ["ignored"] rfl
  rw [h.2.2]
  decide

/-! ## Claim C8 -/

/-- C8: over any sequence of process generations, the streaming runner emits
exactly one update per line of each generation's standard output, with
line-ending characters stripped; each generation performs exactly one spawn,
and when a generation's stream ends the trace sleeps 10 milliseconds before
the next generation, which begins with a new spawn. -/
theorem streaming_lines_and_restart (position : Nat) (gens : List String) (g : String) :
    sendsOf (streamingEvents position gens)
      = (gens.map (fun g0 => (rustLines g0).map (fun line => (⟨position, trimMatchesRN line⟩ : Update)))).flatten
    ∧ execCount (streamingEvents position gens) = gens.length
    ∧ streamingEvents position (g :: gens) = streamingRound position g ++ streamingEvents position gens
    ∧ (streamingRound position g).head? = some Event.exec
    ∧ (streamingRound position g).getLast? = some (Event.sleepMs 10) := by
  refine ⟨?_, ?_, rfl, rfl, ?_⟩
  · induction gens with
    | nil => rfl
    | cons g0 gs ih =>
      show sendsOf (streamingRound position g0 ++ streamingEvents position gs) = _
      rw [sendsOf_append, sendsOf_streamingRound, ih]
      rfl
  · induction gens with
    | nil => rfl
    | cons g0 gs ih =>
      show execCount (streamingRound position g0 ++ streamingEvents position gs) = _
      rw [execCount_append, execCount_streamingRound, ih]
      rw [Nat.add_comm]
      rfl
  · have hsr : streamingRound position g
        = (Event.exec :: (rustLines g).map (fun line => Event.send ⟨position, trimMatchesRN line⟩))
            ++ [Event.sleepMs 10] := by
      rw [streamingRound]
      rfl
    rw [hsr, List.getLast?_concat]

/-! ## Claim C3 -/

theorem foldl_senderStep_clone (m k : Nat) :
    (List.replicate m SenderEvent.clone).foldl senderStep k = k + m := by
  induction m generalizing k with
  | zero => rfl
  | succ j ih =>
    rw [List.replicate_succ, List.foldl_cons, ih]
    show k + 1 + j = k + (j + 1)
    omega

theorem foldl_senderStep_dropClone (m k : Nat) :
    (List.replicate m SenderEvent.dropClone).foldl senderStep k = k - m := by
  induction m generalizing k with
  | zero => rfl
  | succ j ih =>
    rw [List.replicate_succ, List.foldl_cons, ih]
    show k - 1 - j = k - (j + 1)
    omega

theorem liveAfter_staticOnly (n : Nat) : liveAfter (mainSenderEventsStaticOnly n) = 1 := by
  rw [mainSenderEventsStaticOnly, liveAfter, List.foldl_append,
      foldl_senderStep_clone, foldl_senderStep_dropClone]
  omega

theorem recvStep_closed_iff (c : Channel) :
    recvStep c = RecvResult.closed ↔ c.liveSenders = 0 ∧ c.queued = [] := by
  rcases c with ⟨ls, q⟩
  cases q with
  | nil =>
    by_cases hl : ls = 0
    · simp [recvStep, hl]
    · simp [recvStep, hl]
  | cons u us => simp [recvStep]

/-- C3 counterexample: in a static-only configuration with three runnable
items, after every runner thread has sent its single update and exited and the
queue has been drained, one sender endpoint (the original, still bound in
main) is alive, so the next receive attempt BLOCKS instead of closing the
loop: the program does not naturally terminate. -/
theorem static_only_run_never_closes :
    liveAfter (mainSenderEventsStaticOnly 3) = 1
    ∧ recvStep ⟨liveAfter (mainSenderEventsStaticOnly 3), []⟩ = RecvResult.blocked
    ∧ RecvResult.blocked ≠ RecvResult.closed :=
  ⟨by decide, by decide, by decide⟩

/-- C3 amended: the receive loop ends exactly when the queue is drained and
every sender endpoint has been dropped; but because main keeps the original
sender bound across the whole receive loop, a static-only configuration ends
up with exactly one live endpoint once all runner threads have exited, and the
drained loop blocks forever rather than terminating. -/
theorem receive_loop_close_condition (c : Channel) (n : Nat) :
    (recvStep c = RecvResult.closed ↔ c.liveSenders = 0 ∧ c.queued = [])
    ∧ liveAfter (mainSenderEventsStaticOnly n) = 1
    ∧ recvStep ⟨liveAfter (mainSenderEventsStaticOnly n), []⟩ = RecvResult.blocked := by
  refine ⟨recvStep_closed_iff c, liveAfter_staticOnly n, ?_⟩
  rw [liveAfter_staticOnly n]
  rfl

/-! ## Claim C4 -/

/-- A section whose static and reload fields are both present with the wrong
type (strings), alongside a valid path. -/
def illTypedConfig : List (String × Toml) :=
  [("path", Toml.str "date"), ("static", Toml.str "yes"), ("reload", Toml.str "5")]

/-- C4 counterexample: an item whose reload field is a string and whose static
field is a string validates SUCCESSFULLY: static falls back to false, reload
to none (the streaming branch) - the runner does not abort. -/
theorem ill_typed_fields_fall_back :
    validateScript "clock" (some illTypedConfig) (some "/bin/sh")
      = Except.ok ⟨"/bin/sh", "date", false, none⟩
    ∧ isStaticOf illTypedConfig = false
    ∧ durationOf illTypedConfig = none :=
  ⟨rfl, rfl, rfl⟩

/-- C4 amended: a present but non-numeric reload is silently ignored (the
interval is none, so a non-static item falls into the streaming branch) and a
present but non-boolean static is silently treated as false; validation
succeeds or fails on the section, path and shell lookups alone, never on
these two fields. -/
theorem ill_typed_fields_use_defaults (config : List (String × Toml)) (name : String)
    (envShell : Option String) (v w : Toml)
    (hr : tomlGet config "reload" = some v) (hv : v.isNumeric = false)
    (hs : tomlGet config "static" = some w) (hw : w.as_bool = none) :
    durationOf config = none
    ∧ isStaticOf config = false
    ∧ ((validateScript name (some config) envShell).isOk
        = ((pathOf name config).isOk && (shellOf name config envShell).isOk)) := by
  refine ⟨?_, ?_, ?_⟩
  · rw [durationOf, hr]
    cases v with
    | int i => exact absurd hv (by simp [Toml.isNumeric])
    | float q => exact absurd hv (by simp [Toml.isNumeric])
    | str s => rfl
    | bool b => rfl
    | arr xs => rfl
    | table t => rfl
  · rw [isStaticOf, hs]
    rw [Option.some_bind, hw]
  · rw [validateScript]
    cases hp : pathOf name config with
    | error e => simp [Except.isOk, Except.toBool]
    | ok cmd =>
      cases hsh : shellOf name config envShell with
      | error e => simp [Except.isOk, Except.toBool]
      | ok sh => simp [Except.isOk, Except.toBool]

/-- C4 amended witness on the concrete ill-typed section. -/
theorem ill_typed_fields_use_defaults_check :
    durationOf illTypedConfig = none
    ∧ isStaticOf illTypedConfig = false
    ∧ ((validateScript "clock" (some illTypedConfig) (some "/bin/sh")).isOk
        = ((pathOf "clock" illTypedConfig).isOk && (shellOf "clock" illTypedConfig (some "/bin/sh")).isOk)) :=
  ill_typed_fields_use_defaults illTypedConfig "clock" (some "/bin/sh")
    (Toml.str "5") (Toml.str "yes") rfl rfl rfl rfl

/-! ## Claim C10 -/

theorem sendsOf_periodicEvents (position timeMs : Nat) (outs : List String) :
    sendsOf (periodicEvents position timeMs outs)
      = outs.map (fun o => (⟨position, trimMatchesRN o⟩ : Update)) := by
  induction outs with
  | nil => rfl
  | cons o os ih =>
    show sendsOf (periodicRound position timeMs o ++ periodicEvents position timeMs os) = _
    rw [sendsOf_append, ih]
    rfl

theorem sendsOf_streamingEvents (position : Nat) (gens : List String) :
    sendsOf (streamingEvents position gens)
      = (gens.map (fun g0 => (rustLines g0).map (fun line => (⟨position, trimMatchesRN line⟩ : Update)))).flatten := by
  induction gens with
  | nil => rfl
  | cons g0 gs ih =>
    show sendsOf (streamingRound position g0 ++ streamingEvents position gs) = _
    rw [sendsOf_append, sendsOf_streamingRound, ih]
    rfl

theorem sendsOf_runnerEvents_position (spec : RunnerSpec) (position : Nat) (firstOut : String) (rest : List String) :
    ∀ w ∈ sendsOf (runnerEvents spec position firstOut rest), w.position = position := by
  intro w hw
  rw [runnerEvents] at hw
  by_cases hstat : spec.isStatic
  · rw [if_pos hstat] at hw
    have hww : w = ⟨position, trimMatchesRN firstOut⟩ ∨ w ∈ sendsOf [] := by
      simpa [staticEvents, sendsOf_cons_exec, sendsOf_cons_send] using hw
    rcases hww with rfl | hww
    · rfl
    · exact absurd hww (by simp [sendsOf])
  · rw [if_neg hstat] at hw
    cases hd : spec.duration with
    | some t =>
      rw [hd, sendsOf_periodicEvents] at hw
      obtain ⟨o, _, rfl⟩ := List.mem_map.mp hw
      rfl
    | none =>
      rw [hd, sendsOf_streamingEvents] at hw
      obtain ⟨q, hq, hwq⟩ := List.mem_flatten.mp hw
      obtain ⟨g0, _, rfl⟩ := List.mem_map.mp hq
      obtain ⟨line, _, rfl⟩ := List.mem_map.mp hwq
      rfl

theorem spawned_positions_lt (configToml : List (String × Toml)) (items : List String) :
    ∀ e ∈ (spawnAll configToml items).spawned, e.2.1 < (spawnAll configToml items).messageVec.length := by
  obtain ⟨h1, _, h3, _, _⟩ := spawnAll_characterization configToml items
  intro e he
  have hm : e.2.1 ∈ List.range (spawnAll configToml items).position := by
    rw [← h3]
    exact List.mem_map_of_mem _ he
  rw [← h1]
  exact List.mem_range.mp hm

/-- C10: the spawn loop keeps every assigned position strictly below the
number of slots (one slot was pushed per spawned runner); every runner only
ever sends its own assigned position; and for any in-bounds update the slot
write hits a real index - the vector length is preserved and the written slot
holds the new message - so the receive loop cannot index out of bounds. -/
theorem slot_writes_in_bounds (configToml : List (String × Toml)) (items : List String)
    (spec : RunnerSpec) (position : Nat) (firstOut : String) (rest : List String)
    (st : AggState) (u : Update) :
    (∀ e ∈ (spawnAll configToml items).spawned, e.2.1 < (spawnAll configToml items).messageVec.length)
    ∧ (∀ w ∈ sendsOf (runnerEvents spec position firstOut rest), w.position = position)
    ∧ (u.position < st.messageVec.length →
        (aggStep st u).messageVec.length = st.messageVec.length
        ∧ (aggStep st u).messageVec[u.position]? = some u.message) := by
  refine ⟨spawned_positions_lt configToml items,
      sendsOf_runnerEvents_position spec position firstOut rest, ?_⟩
  intro hlt
  refine ⟨aggStep_length st u, ?_⟩
  rw [aggStep_messageVec]
  simp [List.getElem?_set, hlt]

/-! ## Claim C5 -/

theorem aggStep_concrete (mv : List String) (pm : String) (outs : List String) (u : Update) :
    aggStep ⟨mv, pm, outs⟩ u
      = if pm ≠ concatLine (mv.set u.position u.message) then
          (⟨mv.set u.position u.message, concatLine (mv.set u.position u.message),
              outs ++ [concatLine (mv.set u.position u.message)]⟩ : AggState)
        else ⟨mv.set u.position u.message, pm, outs⟩ := rfl

theorem concatLine_append_empty (v : List String) : concatLine (v ++ [""]) = concatLine v := by
  apply String.ext
  rw [concatLine_data, concatLine_data, List.map_append, List.flatten_append]
  simp

theorem aggRun_append_empty_slot (mv : List String) (pm : String) (outs : List String)
    (us : List Update) (h : ∀ u ∈ us, u.position < mv.length) :
    aggRun ⟨mv ++ [""], pm, outs⟩ us
      = ⟨(aggRun ⟨mv, pm, outs⟩ us).messageVec ++ [""],
          (aggRun ⟨mv, pm, outs⟩ us).printMessage,
          (aggRun ⟨mv, pm, outs⟩ us).outputs⟩ := by
  induction us generalizing mv pm outs with
  | nil => rfl
  | cons u us ih =>
    rw [aggRun_cons, aggRun_cons]
    have hu := h u (List.mem_cons_self u us)
    have hset : (mv ++ [""]).set u.position u.message = mv.set u.position u.message ++ [""] :=
      List.set_append_left u.position u.message hu
    have hrest : ∀ x ∈ us, x.position < (mv.set u.position u.message).length := by
      intro x hx
      rw [List.length_set]
      exact h x (List.mem_cons_of_mem u hx)
    rw [aggStep_concrete, aggStep_concrete, hset, concatLine_append_empty]
    by_cases hc : pm = concatLine (mv.set u.position u.message)
    · rw [if_neg (fun hh => hh hc), if_neg (fun hh => hh hc)]
      exact ih _ pm outs hrest
    · rw [if_pos hc, if_pos hc]
      exact ih _ _ _ hrest

theorem interleave_mem (queues : List (List Update)) (sched : List Nat) (u : Update)
    (h : u ∈ interleave queues sched) : ∃ q ∈ queues, u ∈ q := by
  induction sched generalizing queues with
  | nil => simp [interleave] at h
  | cons i rest ih =>
    rw [interleave] at h
    cases hq : queues[i]? with
    | none =>
      rw [hq] at h
      exact ih queues h
    | some q =>
      cases q with
      | nil =>
        rw [hq] at h
        exact ih queues h
      | cons u0 us =>
        rw [hq] at h
        rcases List.mem_cons.mp h with he | hmem
        · exact ⟨u0 :: us, List.getElem?_mem hq, he ▸ List.mem_cons_self u0 us⟩
        · obtain ⟨q, hq2, hu⟩ := ih _ hmem
          rcases List.mem_or_eq_of_mem_set hq2 with hin | he
          · exact ⟨q, hin, hu⟩
          · exact ⟨u0 :: us, List.getElem?_mem hq, List.mem_cons_of_mem u0 (he ▸ hu)⟩

theorem interleave_append_nil (queues : List (List Update)) (sched : List Nat) :
    interleave (queues ++ [[]]) sched = interleave queues sched := by
  induction sched generalizing queues with
  | nil => rfl
  | cons i rest ih =>
    rw [interleave, interleave]
    by_cases hi : i < queues.length
    · rw [List.getElem?_append_left hi]
      cases hg : queues[i]? with
      | none => exact ih queues
      | some q =>
        cases q with
        | nil => exact ih queues
        | cons u0 us =>
          show u0 :: interleave ((queues ++ [[]]).set i us) rest = u0 :: interleave (queues.set i us) rest
          rw [List.set_append_left i us hi, ih]
    · have hge := Nat.le_of_not_lt hi
      rw [List.getElem?_append_right hge]
      by_cases he : i - queues.length = 0
      · rw [he]
        show (match ([([] : List Update)])[0]? with
            | some (u :: us) => u :: interleave ((queues ++ [[]]).set i us) rest
            | _ => interleave (queues ++ [[]]) rest)
          = (match queues[i]? with
            | some (u :: us) => u :: interleave (queues.set i us) rest
            | _ => interleave queues rest)
        rw [List.getElem?_eq_none hge]
        exact ih queues
      · have hx : ([([] : List Update)])[i - queues.length]? = none := by
          rw [List.getElem?_eq_none]
          simp only [List.length_cons, List.length_nil]
          omega
        rw [hx, List.getElem?_eq_none hge]
        exact ih queues

theorem runnerSends_position (name : String) (script : Toml) (env : Option String)
    (position : Nat) (f : String) (r : List String) :
    ∀ u ∈ runnerSends name script env position f r, u.position = position := by
  intro u hu
  rw [runnerSends] at hu
  cases hval : validateScript name script.as_table env with
  | error e =>
    rw [hval] at hu
    simp at hu
  | ok spec =>
    rw [hval] at hu
    exact sendsOf_runnerEvents_position spec position f r u hu

/-- A configuration with an item section lacking a path (a fatal runner
startup condition) next to a healthy static item. -/
def configWithBadItem : List (String × Toml) :=
  [("bad", Toml.table []),
   ("good", Toml.table [("path", Toml.str "echo hi"), ("static", Toml.bool true)])]

/-- C5 counterexample: with a first item whose section has no path - a fatal
runner-startup condition - and a second healthy static item, the run still
prints the healthy item's output; the process is not terminated and the
remaining item keeps running, while the failed runner contributes only its
stderr diagnostic. -/
theorem bad_item_does_not_kill_process :
    (systemRun configWithBadItem ["bad", "good"] (some "/bin/sh")
        [("", []), ("hi\n", [])] [1]).printed = ["hi"]
    ∧ (systemRun configWithBadItem ["bad", "good"] (some "/bin/sh")
        [("", []), ("hi\n", [])] [1]).stderrDiags = ["No path found for bad\n"] :=
  ⟨by decide, by decide⟩

/-- C5 amended: a fatal runner-startup condition (missing or invalid path,
invalid shell, missing SHELL variable - anything that makes validation fail)
panics only that runner thread: adding such an item to a run appends exactly
its diagnostic to standard error and leaves the printed output unchanged - the
remaining items keep running and the process is not terminated. -/
theorem runner_panic_is_thread_local (configToml : List (String × Toml)) (items : List String)
    (envShell : Option String) (worlds : List (String × List String)) (sched : List Nat)
    (badName : String) (badScript : Toml) (w : String × List String) (d : String)
    (hfind : tomlGet configToml badName = some badScript)
    (herr : validateScript badName badScript.as_table envShell = Except.error d)
    (hlen : worlds.length = (spawnAll configToml items).spawned.length) :
    (systemRun configToml (items ++ [badName]) envShell (worlds ++ [w]) sched).printed
      = (systemRun configToml items envShell worlds sched).printed
    ∧ (systemRun configToml (items ++ [badName]) envShell (worlds ++ [w]) sched).stderrDiags
      = (systemRun configToml items envShell worlds sched).stderrDiags ++ [d] := by
  have hS : spawnAll configToml (items ++ [badName])
      = ⟨(spawnAll configToml items).spawned
            ++ [(badName, (spawnAll configToml items).position, badScript)],
          (spawnAll configToml items).position + 1,
          (spawnAll configToml items).messageVec ++ [""],
          (spawnAll configToml items).diags⟩ := by
    rw [spawnAll_append]
    simp only [spawnStep, hfind]
  have hrdiags : runnerDiags badName badScript envShell = [d] := by
    simp only [runnerDiags, herr]
  have hrsends : runnerSends badName badScript envShell
      (spawnAll configToml items).position w.1 w.2 = [] := by
    simp only [runnerSends, herr]
  have hzip : ((spawnAll configToml items).spawned
        ++ [(badName, (spawnAll configToml items).position, badScript)]).zip (worlds ++ [w])
      = (spawnAll configToml items).spawned.zip worlds
        ++ [((badName, (spawnAll configToml items).position, badScript), w)] :=
    List.zip_append hlen.symm
  have hpos : ∀ u ∈ interleave
      (((spawnAll configToml items).spawned.zip worlds).map
        (fun p => runnerSends p.1.1 p.1.2.2 envShell p.1.2.1 p.2.1 p.2.2)) sched,
      u.position < (spawnAll configToml items).messageVec.length := by
    intro u hu
    obtain ⟨q, hq, huq⟩ := interleave_mem _ _ u hu
    obtain ⟨p, hp, hpq⟩ := List.mem_map.mp hq
    have hup : u.position = p.1.2.1 := by
      apply runnerSends_position p.1.1 p.1.2.2 envShell p.1.2.1 p.2.1 p.2.2 u
      rw [hpq]
      exact huq
    rw [hup]
    exact spawned_positions_lt configToml items p.1 (List.of_mem_zip hp).1
  simp only [systemRun, hS, hzip, List.map_append, List.map_cons, List.map_nil,
      List.flatten_append, List.flatten_cons, List.flatten_nil, List.append_nil,
      hrdiags, hrsends, interleave_append_nil]
  rw [aggRun_append_empty_slot (spawnAll configToml items).messageVec "" [] _ hpos]
  exact ⟨rfl, by rw [List.append_assoc]⟩

/-- C5 amended witness at a concrete run: appending the pathless item to a
run with one healthy item keeps the printed output and appends exactly the
diagnostic. -/
theorem runner_panic_is_thread_local_check :
    (systemRun configWithBadItem (["good"] ++ ["bad"]) (some "/bin/sh")
        ([("hi\n", [])] ++ [("", [])]) [0]).printed
      = (systemRun configWithBadItem ["good"] (some "/bin/sh") [("hi\n", [])] [0]).printed
    ∧ (systemRun configWithBadItem (["good"] ++ ["bad"]) (some "/bin/sh")
        ([("hi\n", [])] ++ [("", [])]) [0]).stderrDiags
      = (systemRun configWithBadItem ["good"] (some "/bin/sh") [("hi\n", [])] [0]).stderrDiags
        ++ ["No path found for bad\n"] :=
  runner_panic_is_thread_local configWithBadItem ["good"] (some "/bin/sh") [("hi\n", [])] [0]
    "bad" (Toml.table []) ("", []) "No path found for bad\n" rfl rfl rfl
